import Mathlib

/-!
Verification of the poll-aggregate-publish core of
src/Huawei_modubs_UpdateAndServe_Multiparameter.py.

The embedding models one polling round of the main loop: the per-pair read
logic of read_measurement_values (with last-known-good fallback and a
reconnect attempt on failure), aggregate_values, and the register packing
of update_modbus_registers.  External effects (the Modbus client calls and
the reconnect attempt on a device handle) are supplied by an environment
that fixes the outcome of each call during the round; the device-handle
operations actually performed are recorded as a trace of actions.
-/

namespace PVAgg

/-- Measurement kinds of the MEASUREMENTS dict (source lines 40-43):
"active_power" maps to ActivePower and "Accumulated_energy_yield" maps to
AccumulatedEnergyYield. -/
inductive Measurement where
  | active_power
  | accumulated_energy_yield
deriving DecidableEq

/-- Declaration order of the MEASUREMENTS dict keys (lines 40-43). -/
def MEASUREMENTS : List Measurement :=
  [Measurement.active_power, Measurement.accumulated_energy_yield]

/-- NUM_MEASUREMENTS = len(MEASUREMENTS) (line 46). -/
def NUM_MEASUREMENTS : Nat := MEASUREMENTS.length

/-- MEASUREMENTS_REGISTERS = NUM_MEASUREMENTS * 2 (line 47). -/
def MEASUREMENTS_REGISTERS : Nat := NUM_MEASUREMENTS * 2

/-- TOTAL_REGISTER_COUNT = MEASUREMENTS_REGISTERS + 1 (line 48). -/
def TOTAL_REGISTER_COUNT : Nat := MEASUREMENTS_REGISTERS + 1

/-- Outcome of one inv.read_raw_value call (line 114): a raw integer
value, the explicit None sentinel (checked at lines 115-116), or a raised
exception. -/
inductive ReadResult where
  | ok (v : Int)
  | noneSentinel
  | err
deriving DecidableEq

/-- A read attempt succeeds exactly when it yields a non-None value. -/
def ReadResult.isOk : ReadResult → Bool
  | .ok _ => true
  | _ => false

/-- Device-handle operations performed by the poll loop, recorded as a
trace.  The device-handle capability set also offers a connectivity query
(is_connected); the constructor is present so that claims about such
queries can be stated over the trace. -/
inductive Action where
  | readAttempt (device : String) (m : Measurement)
  | disconnect (device : String)
  | sleep (seconds : Nat)
  | connect (device : String)
  | isConnectedQuery (device : String)
deriving DecidableEq

/-- Where, if anywhere, a reconnect attempt raises: inv.disconnect()
(line 92) or inv.connect() (line 94); time.sleep does not raise. -/
inductive ReconnectBehavior where
  | disconnectRaises
  | connectRaises
  | ok
deriving DecidableEq

/-- The fixed pause time.sleep(2) inside reconnect_inverter (line 93). -/
def RECONNECT_PAUSE : Nat := 2

/-- reconnect_inverter (lines 84-98): disconnect, sleep 2, connect; any
exception is caught inside the function and False is returned (the error
is logged, never propagated).  Returns the device-handle actions actually
performed together with the Bool result. -/
def reconnect_inverter (beh : ReconnectBehavior) (device : String) :
    List Action × Bool :=
  match beh with
  | .disconnectRaises => ([Action.disconnect device], false)
  | .connectRaises =>
      ([Action.disconnect device, Action.sleep RECONNECT_PAUSE,
        Action.connect device], false)
  | .ok =>
      ([Action.disconnect device, Action.sleep RECONNECT_PAUSE,
        Action.connect device], true)

/-- The external world for one polling round: the outcome of each
read_raw_value call on each (device, kind) pair, and how a reconnect
attempt on each device behaves. -/
structure Env where
  read : String → Measurement → ReadResult
  reconnectBeh : String → ReconnectBehavior

/-- Mutable engine state: the last_successful table (initialized per pair
at line 228) and the global failed_reading_counter (line 56).  The table
is modelled as a total function on (device, kind). -/
structure EngineState where
  lkg : String → Measurement → Int
  failedReadingCounter : Nat

/-- Startup state: every last_successful entry is 0 (line 228) and the
failure counter is 0 (line 56). -/
def initialState : EngineState :=
  { lkg := fun _ _ => 0, failedReadingCounter := 0 }

/-- The per-kind scaling (lines 118-119): only Accumulated_energy_yield
is transformed, by int(value / 100).  On the 32-bit register range the
Python float division is exact enough that int(value / 100) coincides
with division by 100 truncated toward zero, which Int.tdiv is. -/
def applyTransform (m : Measurement) (v : Int) : Int :=
  match m with
  | .accumulated_energy_yield => Int.tdiv v 100
  | .active_power => v

/-- One entry of detailed_values[name][measurement] (line 131); the
wall-clock timestamp string is not modelled. -/
structure PairRecord where
  value : Int
  updated : Bool
deriving DecidableEq

/-- Result of processing one (device, kind) pair. -/
structure PairOutput where
  state : EngineState
  record : PairRecord
  trace : List Action

/-- Result of processing all kinds of one device. -/
structure DeviceOutput where
  state : EngineState
  records : List (Measurement × PairRecord)
  trace : List Action

/-- Result of one full round of read_measurement_values. -/
structure RoundOutput where
  state : EngineState
  detailed : List (String × List (Measurement × PairRecord))
  trace : List Action

/-- The except branch of the inner loop (lines 123-129): increment
failed_reading_counter, call reconnect_inverter discarding its result
(line 128), fall back to last_successful[name][measurement] and mark the
pair stale. -/
def readPairFail (env : Env) (st : EngineState) (device : String)
    (m : Measurement) : PairOutput :=
  { state := { st with failedReadingCounter := st.failedReadingCounter + 1 },
    record := { value := st.lkg device m, updated := false },
    trace := Action.readAttempt device m
      :: (reconnect_inverter (env.reconnectBeh device) device).1 }

/-- The body of the inner loop of read_measurement_values (lines 113-131)
for one (device, measurement) pair: on a successful non-None read, apply
the transform, store the transformed value into last_successful and mark
the pair updated; on an exception or the None sentinel take the except
branch. -/
def readPair (env : Env) (st : EngineState) (device : String)
    (m : Measurement) : PairOutput :=
  match env.read device m with
  | .ok raw =>
      let value := applyTransform m raw
      { state :=
          { st with
            lkg := fun d2 m2 =>
              if d2 = device ∧ m2 = m then value else st.lkg d2 m2 },
        record := { value := value, updated := true },
        trace := [Action.readAttempt device m] }
  | .noneSentinel => readPairFail env st device m
  | .err => readPairFail env st device m

/-- The inner measurement loop (line 112) over a list of kinds. -/
def readDeviceKinds (env : Env) (device : String) :
    EngineState → List Measurement → DeviceOutput
  | st, [] => { state := st, records := [], trace := [] }
  | st, m :: ms =>
      let p := readPair env st device m
      let rest := readDeviceKinds env device p.state ms
      { state := rest.state,
        records := (m, p.record) :: rest.records,
        trace := p.trace ++ rest.trace }

/-- read_measurement_values (lines 100-135): the device loop; each device
processes all MEASUREMENTS kinds in declaration order. -/
def read_measurement_values (env : Env) :
    EngineState → List String → RoundOutput
  | st, [] => { state := st, detailed := [], trace := [] }
  | st, d :: ds =>
      let dev := readDeviceKinds env d st MEASUREMENTS
      let rest := read_measurement_values env dev.state ds
      { state := rest.state,
        detailed := (d, dev.records) :: rest.detailed,
        trace := dev.trace ++ rest.trace }

/-- The loop body of aggregate_values over one device's measurements
(lines 146-150): add each record's value to its kind's running sum and
count the updated records.  The two accumulators are the two locals
aggregated_values and valid_readings_count. -/
def aggregateRecords : (Measurement → Int) → Nat →
    List (Measurement × PairRecord) → (Measurement → Int) × Nat
  | sums, c, [] => (sums, c)
  | sums, c, (m, r) :: rest =>
      aggregateRecords
        (fun m2 => if m2 = m then sums m2 + r.value else sums m2)
        (if r.updated then c + 1 else c) rest

/-- The outer device loop of aggregate_values (line 146). -/
def aggLoop : (Measurement → Int) → Nat →
    List (String × List (Measurement × PairRecord)) →
    (Measurement → Int) × Nat
  | sums, c, [] => (sums, c)
  | sums, c, (_, recs) :: rest =>
      aggLoop (aggregateRecords sums c recs).1
        (aggregateRecords sums c recs).2 rest

/-- aggregate_values (lines 137-152): aggregated_values starts as
key-to-0 for every key of MEASUREMENTS (modelled as the constantly-0
function) and valid_readings_count starts as 0. -/
def aggregate_values
    (detailed : List (String × List (Measurement × PairRecord))) :
    (Measurement → Int) × Nat :=
  aggLoop (fun _ => 0) 0 detailed

/-- context[0].setValues(3, offset, vals) on the holding-register block
(lines 165 and 169): write the list at consecutive offsets. -/
def setValues : (Nat → Int) → Nat → List Int → (Nat → Int)
  | regs, _, [] => regs
  | regs, offset, v :: vs =>
      setValues (fun i => if i = offset then v else regs i) (offset + 1) vs

/-- low = total_value & 0xFFFF (line 163); on arbitrary Python ints the
mask yields the nonnegative remainder modulo 2^16. -/
def lowWord (v : Int) : Int := Int.emod v 65536

/-- high = (total_value >> 16) & 0xFFFF (line 164); Python >> is floor
division by 2^16 followed by the mask. -/
def highWord (v : Int) : Int := Int.emod (Int.ediv v 65536) 65536

/-- update_modbus_registers (lines 154-170): under data_lock, for each
measurement in declaration order write [high, low] at the running offset
(advancing by 2), then write valid_readings_count at the trailing offset.
The lock acquisition is a concurrency artefact outside this functional
model. -/
def update_modbus_registers (agg : Measurement → Int) (cnt : Nat)
    (regs : Nat → Int) : Nat → Int :=
  let final := MEASUREMENTS.foldl
    (fun acc m =>
      (setValues acc.1 acc.2 [highWord (agg m), lowWord (agg m)],
       acc.2 + 2))
    (regs, 0)
  setValues final.1 final.2 [Int.ofNat cnt]

/-- Sum of the round values recorded for kind m in one device's records. -/
def recsSum : List (Measurement × PairRecord) → Measurement → Int
  | [], _ => 0
  | q :: rest, m => (if q.1 = m then q.2.value else 0) + recsSum rest m

/-- Sum over all devices of the round's chosen value for kind m. -/
def chosenSum :
    List (String × List (Measurement × PairRecord)) → Measurement → Int
  | [], _ => 0
  | p :: rest, m => recsSum p.2 m + chosenSum rest m

/-- Sum of a last-known-good table's entries for one kind over a device
list. -/
def lkgSum (L : String → Measurement → Int) :
    List String → Measurement → Int
  | [], _ => 0
  | d :: ds, m => L d m + lkgSum L ds m

/-- Number of updated records in one device's records. -/
def updCount : List (Measurement × PairRecord) → Nat
  | [] => 0
  | q :: rest => (if q.2.updated then 1 else 0) + updCount rest

/-- Number of updated records in a whole round result. -/
def detUpdCount : List (String × List (Measurement × PairRecord)) → Nat
  | [] => 0
  | p :: rest => updCount p.2 + detUpdCount rest

/-- Number of kinds in ms whose read on this device succeeds. -/
def kindsOkCount (env : Env) (device : String) : List Measurement → Nat
  | [] => 0
  | m :: ms =>
      (if (env.read device m).isOk then 1 else 0) + kindsOkCount env device ms

/-- Number of (device, kind) read attempts that succeed in one round. -/
def okCount (env : Env) : List String → Nat
  | [] => 0
  | d :: ds => kindsOkCount env d MEASUREMENTS + okCount env ds

/-- Recognizes a connectivity query in the trace. -/
def isConnQuery : Action → Bool
  | .isConnectedQuery _ => true
  | _ => false

/-- How many connectivity queries a trace contains. -/
def connQueryCount (tr : List Action) : Nat := tr.countP isConnQuery

/-- Counts the reconnect attempts on one device in a trace (a reconnect
attempt always begins with a disconnect on that device). -/
def disconnectCount (device : String) (tr : List Action) : Nat :=
  tr.countP fun a =>
    match a with
    | .disconnect d2 => d2 = device
    | _ => false

/-- Concrete device name used in witnesses. -/
def devA : String := "A"

/-- Concrete device name used in witnesses. -/
def devB : String := "B"

/-! ### Basic lemmas about one pair step -/

theorem readPair_lkg_other {env : Env} {st : EngineState} {device : String}
    {m : Measurement} {d2 : String} {m2 : Measurement}
    (h : ¬(d2 = device ∧ m2 = m)) :
    (readPair env st device m).state.lkg d2 m2 = st.lkg d2 m2 := by
  cases hr : env.read device m <;> simp [readPair, readPairFail, hr, h]

theorem readPair_lkg_notOk {env : Env} {st : EngineState} {device : String}
    {m : Measurement} (h : (env.read device m).isOk = false) :
    (readPair env st device m).state.lkg = st.lkg := by
  cases hr : env.read device m with
  | ok v => rw [hr] at h; simp [ReadResult.isOk] at h
  | noneSentinel => simp [readPair, readPairFail, hr]
  | err => simp [readPair, readPairFail, hr]

theorem readPair_lkg_ok {env : Env} {st : EngineState} {device : String}
    {m : Measurement} {v : Int} (h : env.read device m = ReadResult.ok v) :
    (readPair env st device m).state.lkg device m = applyTransform m v := by
  simp [readPair, h]

theorem readPair_record_ok {env : Env} {st : EngineState} {device : String}
    {m : Measurement} {v : Int} (h : env.read device m = ReadResult.ok v) :
    (readPair env st device m).record
      = { value := applyTransform m v, updated := true } := by
  simp [readPair, h]

theorem readPair_record_notOk {env : Env} {st : EngineState}
    {device : String} {m : Measurement}
    (h : (env.read device m).isOk = false) :
    (readPair env st device m).record
      = { value := st.lkg device m, updated := false } := by
  cases hr : env.read device m with
  | ok v => rw [hr] at h; simp [ReadResult.isOk] at h
  | noneSentinel => simp [readPair, readPairFail, hr]
  | err => simp [readPair, readPairFail, hr]

theorem readPair_counter_notOk {env : Env} {st : EngineState}
    {device : String} {m : Measurement}
    (h : (env.read device m).isOk = false) :
    (readPair env st device m).state.failedReadingCounter
      = st.failedReadingCounter + 1 := by
  cases hr : env.read device m with
  | ok v => rw [hr] at h; simp [ReadResult.isOk] at h
  | noneSentinel => simp [readPair, readPairFail, hr]
  | err => simp [readPair, readPairFail, hr]

theorem readPair_trace_notOk {env : Env} {st : EngineState}
    {device : String} {m : Measurement}
    (h : (env.read device m).isOk = false) :
    (readPair env st device m).trace
      = Action.readAttempt device m
          :: (reconnect_inverter (env.reconnectBeh device) device).1 := by
  cases hr : env.read device m with
  | ok v => rw [hr] at h; simp [ReadResult.isOk] at h
  | noneSentinel => simp [readPair, readPairFail, hr]
  | err => simp [readPair, readPairFail, hr]

/-- Any single pair step leaves the stored value of a pair whose own read
fails untouched. -/
theorem readPair_preserves_notOk {env : Env} {st : EngineState}
    {device : String} {m : Measurement} {d2 : String} {m2 : Measurement}
    (h : (env.read d2 m2).isOk = false) :
    (readPair env st device m).state.lkg d2 m2 = st.lkg d2 m2 := by
  by_cases hdm : d2 = device ∧ m2 = m
  · obtain ⟨h1, h2⟩ := hdm
    subst h1; subst h2
    rw [readPair_lkg_notOk h]
  · exact readPair_lkg_other hdm

theorem readPair_lkg_char {env : Env} {st : EngineState} {device : String}
    {m : Measurement} (d2 : String) (m2 : Measurement) :
    (readPair env st device m).state.lkg d2 m2 = st.lkg d2 m2 ∨
      ∃ v, env.read d2 m2 = ReadResult.ok v ∧
        (readPair env st device m).state.lkg d2 m2 = applyTransform m2 v := by
  by_cases hdm : d2 = device ∧ m2 = m
  · obtain ⟨h1, h2⟩ := hdm
    subst h1; subst h2
    cases hr : env.read d2 m2 with
    | ok v => exact Or.inr ⟨v, rfl, readPair_lkg_ok hr⟩
    | noneSentinel =>
        left; rw [readPair_lkg_notOk]; rw [hr]; rfl
    | err =>
        left; rw [readPair_lkg_notOk]; rw [hr]; rfl
  · exact Or.inl (readPair_lkg_other hdm)

/-! ### Shape of the produced round result -/

theorem kinds_shape {env : Env} {device : String} :
    ∀ (st : EngineState) (ms : List Measurement),
      (readDeviceKinds env device st ms).records.map Prod.fst = ms := by
  intro st ms
  induction ms generalizing st with
  | nil => rfl
  | cons m ms ih => simp [readDeviceKinds, ih]

theorem round_shape {env : Env} :
    ∀ (st : EngineState) (ds : List String),
      (read_measurement_values env st ds).detailed.map Prod.fst = ds := by
  intro st ds
  induction ds generalizing st with
  | nil => rfl
  | cons d ds ih => simp [read_measurement_values, ih]

theorem round_dev_shape {env : Env} :
    ∀ (st : EngineState) (ds : List String),
      ∀ p ∈ (read_measurement_values env st ds).detailed,
        p.2.map Prod.fst = MEASUREMENTS := by
  intro st ds
  induction ds generalizing st with
  | nil => intro p hp; simp [read_measurement_values] at hp
  | cons d ds ih =>
      intro p hp
      simp only [read_measurement_values, List.mem_cons] at hp
      rcases hp with rfl | hp
      · exact kinds_shape _ _
      · exact ih _ p hp

/-! ### Frame lemmas for the last-known-good table -/

theorem kinds_lkg_kindFrame {env : Env} {device : String} {d2 : String}
    {m2 : Measurement} :
    ∀ {st : EngineState} {ms : List Measurement}, m2 ∉ ms →
      (readDeviceKinds env device st ms).state.lkg d2 m2 = st.lkg d2 m2 := by
  intro st ms
  induction ms generalizing st with
  | nil => intro _; rfl
  | cons m ms ih =>
      intro h
      simp only [List.mem_cons, not_or] at h
      simp only [readDeviceKinds]
      rw [ih h.2, readPair_lkg_other (fun hc => h.1 hc.2)]

theorem kinds_lkg_deviceFrame {env : Env} {device : String} {d2 : String}
    {m2 : Measurement} (h : d2 ≠ device) :
    ∀ {st : EngineState} {ms : List Measurement},
      (readDeviceKinds env device st ms).state.lkg d2 m2 = st.lkg d2 m2 := by
  intro st ms
  induction ms generalizing st with
  | nil => rfl
  | cons m ms ih =>
      simp only [readDeviceKinds]
      rw [ih, readPair_lkg_other (fun hc => h hc.1)]

theorem kinds_preserves_notOk {env : Env} {device : String} {d2 : String}
    {m2 : Measurement} (h : (env.read d2 m2).isOk = false) :
    ∀ {st : EngineState} {ms : List Measurement},
      (readDeviceKinds env device st ms).state.lkg d2 m2 = st.lkg d2 m2 := by
  intro st ms
  induction ms generalizing st with
  | nil => rfl
  | cons m ms ih =>
      simp only [readDeviceKinds]
      rw [ih, readPair_preserves_notOk h]

theorem round_lkg_deviceFrame {env : Env} {d2 : String} {m2 : Measurement} :
    ∀ {st : EngineState} {ds : List String}, d2 ∉ ds →
      (read_measurement_values env st ds).state.lkg d2 m2 = st.lkg d2 m2 := by
  intro st ds
  induction ds generalizing st with
  | nil => intro _; rfl
  | cons d ds ih =>
      intro h
      simp only [List.mem_cons, not_or] at h
      simp only [read_measurement_values]
      rw [ih h.2, kinds_lkg_deviceFrame h.1]

theorem round_preserves_notOk {env : Env} {d2 : String} {m2 : Measurement}
    (h : (env.read d2 m2).isOk = false) :
    ∀ {st : EngineState} {ds : List String},
      (read_measurement_values env st ds).state.lkg d2 m2 = st.lkg d2 m2 := by
  intro st ds
  induction ds generalizing st with
  | nil => rfl
  | cons d ds ih =>
      simp only [read_measurement_values]
      rw [ih, kinds_preserves_notOk h]

theorem round_lkg_allfail {env : Env} {st : EngineState} {ds : List String}
    (h : ∀ d m, (env.read d m).isOk = false) :
    (read_measurement_values env st ds).state.lkg = st.lkg := by
  funext d m
  exact round_preserves_notOk (h d m)

theorem kinds_lkg_char {env : Env} {device : String} (d2 : String)
    (m2 : Measurement) :
    ∀ {st : EngineState} {ms : List Measurement},
      (readDeviceKinds env device st ms).state.lkg d2 m2 = st.lkg d2 m2 ∨
        ∃ v, env.read d2 m2 = ReadResult.ok v ∧
          (readDeviceKinds env device st ms).state.lkg d2 m2
            = applyTransform m2 v := by
  intro st ms
  induction ms generalizing st with
  | nil => exact Or.inl rfl
  | cons m ms ih =>
      simp only [readDeviceKinds]
      rcases @ih (readPair env st device m).state with heq | hok
      · rcases @readPair_lkg_char env st device m d2 m2 with hp | hp
        · exact Or.inl (heq.trans hp)
        · obtain ⟨v, hv, he⟩ := hp
          exact Or.inr ⟨v, hv, heq.trans he⟩
      · exact Or.inr hok

theorem round_lkg_char {env : Env} (d2 : String) (m2 : Measurement) :
    ∀ {st : EngineState} {ds : List String},
      (read_measurement_values env st ds).state.lkg d2 m2 = st.lkg d2 m2 ∨
        ∃ v, env.read d2 m2 = ReadResult.ok v ∧
          (read_measurement_values env st ds).state.lkg d2 m2
            = applyTransform m2 v := by
  intro st ds
  induction ds generalizing st with
  | nil => exact Or.inl rfl
  | cons d ds ih =>
      simp only [read_measurement_values]
      rcases @ih (readDeviceKinds env d st MEASUREMENTS).state with
        heq | hok
      · rcases @kinds_lkg_char env d d2 m2 st MEASUREMENTS with hp | hp
        · exact Or.inl (heq.trans hp)
        · obtain ⟨v, hv, he⟩ := hp
          exact Or.inr ⟨v, hv, heq.trans he⟩
      · exact Or.inr hok

/-! ### What the round records for each pair -/

theorem kinds_records_spec {env : Env} {device : String} :
    ∀ {st : EngineState} {ms : List Measurement},
      ∀ q ∈ (readDeviceKinds env device st ms).records,
        (∃ v, env.read device q.1 = ReadResult.ok v ∧
          q.2 = { value := applyTransform q.1 v, updated := true }) ∨
        ((env.read device q.1).isOk = false ∧
          q.2 = { value := st.lkg device q.1, updated := false }) := by
  intro st ms
  induction ms generalizing st with
  | nil => intro q hq; simp [readDeviceKinds] at hq
  | cons m ms ih =>
      intro q hq
      simp only [readDeviceKinds, List.mem_cons] at hq
      rcases hq with rfl | hq
      · cases hr : env.read device m with
        | ok v => exact Or.inl ⟨v, rfl, readPair_record_ok hr⟩
        | noneSentinel =>
            have hno : (env.read device m).isOk = false := by
              rw [hr]; rfl
            exact Or.inr ⟨rfl, readPair_record_notOk hno⟩
        | err =>
            have hno : (env.read device m).isOk = false := by
              rw [hr]; rfl
            exact Or.inr ⟨rfl, readPair_record_notOk hno⟩
      · rcases @ih (readPair env st device m).state q hq with hok | hno
        · exact Or.inl hok
        · refine Or.inr ⟨hno.1, ?_⟩
          rw [hno.2, readPair_preserves_notOk hno.1]

theorem round_records_spec {env : Env} :
    ∀ {st : EngineState} {ds : List String},
      ∀ p ∈ (read_measurement_values env st ds).detailed, ∀ q ∈ p.2,
        (∃ v, env.read p.1 q.1 = ReadResult.ok v ∧
          q.2 = { value := applyTransform q.1 v, updated := true }) ∨
        ((env.read p.1 q.1).isOk = false ∧
          q.2 = { value := st.lkg p.1 q.1, updated := false }) := by
  intro st ds
  induction ds generalizing st with
  | nil => intro p hp; simp [read_measurement_values] at hp
  | cons d ds ih =>
      intro p hp q hq
      simp only [read_measurement_values, List.mem_cons] at hp
      rcases hp with rfl | hp
      · exact kinds_records_spec q hq
      · rcases @ih (readDeviceKinds env d st MEASUREMENTS).state
            p hp q hq with hok | hno
        · exact Or.inl hok
        · refine Or.inr ⟨hno.1, ?_⟩
          rw [hno.2, kinds_preserves_notOk hno.1]

/-! ### Aggregation lemmas -/

theorem aggregateRecords_fst {m : Measurement} :
    ∀ {recs : List (Measurement × PairRecord)}
      {sums : Measurement → Int} {c : Nat},
      (aggregateRecords sums c recs).1 m = sums m + recsSum recs m := by
  intro recs
  induction recs with
  | nil => intro sums c; simp [aggregateRecords, recsSum]
  | cons q rest ih =>
      intro sums c
      obtain ⟨k, r⟩ := q
      simp only [aggregateRecords, recsSum]
      rw [ih]
      rcases eq_or_ne k m with rfl | h
      · rw [if_pos rfl, if_pos rfl]
        ring
      · rw [if_neg (fun hc => h (Eq.symm hc)), if_neg h]
        ring

theorem aggregateRecords_snd :
    ∀ {recs : List (Measurement × PairRecord)}
      {sums : Measurement → Int} {c : Nat},
      (aggregateRecords sums c recs).2 = c + updCount recs := by
  intro recs
  induction recs with
  | nil => intro sums c; simp [aggregateRecords, updCount]
  | cons q rest ih =>
      intro sums c
      obtain ⟨k, r⟩ := q
      simp only [aggregateRecords, updCount]
      rw [ih]
      rcases hu : r.updated
      · simp [hu]
      · simp [hu]
        omega

theorem aggLoop_fst {m : Measurement} :
    ∀ {detailed : List (String × List (Measurement × PairRecord))}
      {sums : Measurement → Int} {c : Nat},
      (aggLoop sums c detailed).1 m = sums m + chosenSum detailed m := by
  intro detailed
  induction detailed with
  | nil => intro sums c; simp [aggLoop, chosenSum]
  | cons p rest ih =>
      intro sums c
      obtain ⟨d, recs⟩ := p
      simp only [aggLoop, chosenSum]
      rw [ih, aggregateRecords_fst]
      omega

theorem aggLoop_snd :
    ∀ {detailed : List (String × List (Measurement × PairRecord))}
      {sums : Measurement → Int} {c : Nat},
      (aggLoop sums c detailed).2 = c + detUpdCount detailed := by
  intro detailed
  induction detailed with
  | nil => intro sums c; simp [aggLoop, detUpdCount]
  | cons p rest ih =>
      intro sums c
      obtain ⟨d, recs⟩ := p
      simp only [aggLoop, detUpdCount]
      rw [ih, aggregateRecords_snd]
      omega

theorem aggregate_fst
    {detailed : List (String × List (Measurement × PairRecord))}
    {m : Measurement} :
    (aggregate_values detailed).1 m = chosenSum detailed m := by
  rw [aggregate_values, aggLoop_fst]
  omega

theorem aggregate_snd
    {detailed : List (String × List (Measurement × PairRecord))} :
    (aggregate_values detailed).2 = detUpdCount detailed := by
  rw [aggregate_values, aggLoop_snd]
  omega

/-! ### The freshness count equals the number of successful reads -/

theorem kinds_updCount {env : Env} {device : String} :
    ∀ {st : EngineState} {ms : List Measurement},
      updCount (readDeviceKinds env device st ms).records
        = kindsOkCount env device ms := by
  intro st ms
  induction ms generalizing st with
  | nil => rfl
  | cons m ms ih =>
      simp only [readDeviceKinds, updCount, kindsOkCount]
      rw [ih]
      congr 1
      cases hr : env.read device m with
      | ok v =>
          rw [readPair_record_ok hr]
          rfl
      | noneSentinel =>
          rw [readPair_record_notOk (by rw [hr]; rfl)]
          rfl
      | err =>
          rw [readPair_record_notOk (by rw [hr]; rfl)]
          rfl

theorem round_updCount {env : Env} :
    ∀ {st : EngineState} {ds : List String},
      detUpdCount (read_measurement_values env st ds).detailed
        = okCount env ds := by
  intro st ds
  induction ds generalizing st with
  | nil => rfl
  | cons d ds ih =>
      simp only [read_measurement_values, detUpdCount, okCount]
      rw [ih, kinds_updCount]

theorem kindsOkCount_le {env : Env} {device : String} :
    ∀ {ms : List Measurement}, kindsOkCount env device ms ≤ ms.length := by
  intro ms
  induction ms with
  | nil => simp [kindsOkCount]
  | cons m ms ih =>
      simp only [kindsOkCount, List.length_cons]
      rcases hr : (env.read device m).isOk <;> simp [hr] <;> omega

theorem okCount_le {env : Env} :
    ∀ {ds : List String},
      okCount env ds ≤ ds.length * NUM_MEASUREMENTS := by
  intro ds
  induction ds with
  | nil => simp [okCount]
  | cons d ds ih =>
      have h1 : kindsOkCount env d MEASUREMENTS ≤ NUM_MEASUREMENTS :=
        kindsOkCount_le
      simp only [okCount, List.length_cons]
      have h2 : (ds.length + 1) * NUM_MEASUREMENTS
          = ds.length * NUM_MEASUREMENTS + NUM_MEASUREMENTS := by ring
      omega

theorem okCount_allfail {env : Env}
    (h : ∀ d m, (env.read d m).isOk = false) :
    ∀ {ds : List String}, okCount env ds = 0 := by
  intro ds
  induction ds with
  | nil => rfl
  | cons d ds ih =>
      have h1 : ∀ ms, kindsOkCount env d ms = 0 := by
        intro ms
        induction ms with
        | nil => rfl
        | cons m ms ih2 => simp [kindsOkCount, h d m, ih2]
      simp [okCount, h1, ih]

/-! ### Every chosen value equals the post-round last-known-good value -/

theorem recsSum_eq_zero {m : Measurement} :
    ∀ {recs : List (Measurement × PairRecord)},
      m ∉ recs.map Prod.fst → recsSum recs m = 0 := by
  intro recs
  induction recs with
  | nil => intro _; rfl
  | cons q rest ih =>
      intro h
      simp only [List.map_cons, List.mem_cons, not_or] at h
      simp only [recsSum]
      rw [if_neg (fun hc => h.1 (Eq.symm hc)), ih h.2]
      ring

theorem kinds_recsSum {env : Env} {device : String} {m : Measurement} :
    ∀ {st : EngineState} {ms : List Measurement}, ms.Nodup → m ∈ ms →
      recsSum (readDeviceKinds env device st ms).records m
        = (readDeviceKinds env device st ms).state.lkg device m := by
  intro st ms
  induction ms generalizing st with
  | nil => intro _ hm; simp at hm
  | cons k ms ih =>
      intro hnd hm
      obtain ⟨hk, hnd2⟩ := List.nodup_cons.mp hnd
      rcases List.mem_cons.mp hm with rfl | hm2
      · have hnotin : m ∉ ms := hk
        simp only [readDeviceKinds, recsSum]
        rw [if_pos trivial,
          recsSum_eq_zero (by rw [kinds_shape]; exact hnotin),
          kinds_lkg_kindFrame hnotin]
        cases hr : env.read device m with
        | ok v =>
            rw [readPair_record_ok hr, readPair_lkg_ok hr]
            ring
        | noneSentinel =>
            have hno : (env.read device m).isOk = false := by rw [hr]; rfl
            rw [readPair_record_notOk hno, readPair_lkg_notOk hno]
            ring
        | err =>
            have hno : (env.read device m).isOk = false := by rw [hr]; rfl
            rw [readPair_record_notOk hno, readPair_lkg_notOk hno]
            ring
      · have hkm : ¬(k = m) := fun hc => hk (hc ▸ hm2)
        simp only [readDeviceKinds, recsSum]
        rw [if_neg hkm, ih hnd2 hm2]
        ring

theorem MEASUREMENTS_nodup : MEASUREMENTS.Nodup := by decide

theorem round_chosenSum {env : Env} {m : Measurement}
    (hm : m ∈ MEASUREMENTS) :
    ∀ {st : EngineState} {ds : List String}, ds.Nodup →
      chosenSum (read_measurement_values env st ds).detailed m
        = lkgSum (read_measurement_values env st ds).state.lkg ds m := by
  intro st ds
  induction ds generalizing st with
  | nil => intro _; rfl
  | cons d ds ih =>
      intro hnd
      obtain ⟨hd, hnd2⟩ := List.nodup_cons.mp hnd
      simp only [read_measurement_values, chosenSum, lkgSum]
      rw [kinds_recsSum MEASUREMENTS_nodup hm, ih hnd2,
        round_lkg_deviceFrame hd]

/-! ### Trace lemmas -/

theorem reconnect_trace_shape (beh : ReconnectBehavior) (device : String) :
    (reconnect_inverter beh device).1 = [Action.disconnect device] ∨
      (reconnect_inverter beh device).1
        = [Action.disconnect device, Action.sleep RECONNECT_PAUSE,
           Action.connect device] := by
  cases beh
  · exact Or.inl rfl
  · exact Or.inr rfl
  · exact Or.inr rfl

theorem reconnect_disconnectCount {beh : ReconnectBehavior}
    {device : String} :
    disconnectCount device (reconnect_inverter beh device).1 = 1 := by
  cases beh <;>
    simp [disconnectCount, reconnect_inverter, List.countP_cons,
      List.countP_nil]

theorem reconnect_noConnQuery {beh : ReconnectBehavior} {device : String} :
    connQueryCount (reconnect_inverter beh device).1 = 0 := by
  cases beh <;> rfl

theorem readPair_noConnQuery {env : Env} {st : EngineState}
    {device : String} {m : Measurement} :
    connQueryCount (readPair env st device m).trace = 0 := by
  cases hr : env.read device m with
  | ok v => simp [readPair, hr, connQueryCount, isConnQuery]
  | noneSentinel =>
      simp only [readPair, hr, readPairFail, connQueryCount, List.countP_cons]
      have h := @reconnect_noConnQuery (env.reconnectBeh device) device
      simp only [connQueryCount] at h
      simp [h, isConnQuery]
  | err =>
      simp only [readPair, hr, readPairFail, connQueryCount, List.countP_cons]
      have h := @reconnect_noConnQuery (env.reconnectBeh device) device
      simp only [connQueryCount] at h
      simp [h, isConnQuery]

theorem kinds_noConnQuery {env : Env} {device : String} :
    ∀ {st : EngineState} {ms : List Measurement},
      connQueryCount (readDeviceKinds env device st ms).trace = 0 := by
  intro st ms
  induction ms generalizing st with
  | nil => rfl
  | cons m ms ih =>
      simp only [readDeviceKinds, connQueryCount, List.countP_append]
      have h1 := @readPair_noConnQuery env st device m
      simp only [connQueryCount] at h1
      have h2 := @ih (readPair env st device m).state
      simp only [connQueryCount] at h2
      omega

theorem round_noConnQuery {env : Env} :
    ∀ {st : EngineState} {ds : List String},
      connQueryCount (read_measurement_values env st ds).trace = 0 := by
  intro st ds
  induction ds generalizing st with
  | nil => rfl
  | cons d ds ih =>
      simp only [read_measurement_values, connQueryCount, List.countP_append]
      have h1 := @kinds_noConnQuery env d st MEASUREMENTS
      simp only [connQueryCount] at h1
      have h2 := @ih (readDeviceKinds env d st MEASUREMENTS).state
      simp only [connQueryCount] at h2
      omega

theorem readPair_disconnectCount_notOk {env : Env} {st : EngineState}
    {device : String} {m : Measurement}
    (h : (env.read device m).isOk = false) :
    disconnectCount device (readPair env st device m).trace = 1 := by
  rw [readPair_trace_notOk h]
  simp only [disconnectCount, List.countP_cons]
  have h1 := @reconnect_disconnectCount (env.reconnectBeh device) device
  simp only [disconnectCount] at h1
  simp [h1]

/-! ### Concrete environments used by the witnesses -/

/-- Witness environment in which every read succeeds with value 7. -/
def envOk : Env :=
  { read := fun _ _ => ReadResult.ok 7,
    reconnectBeh := fun _ => ReconnectBehavior.ok }

/-- Witness environment in which every read raises. -/
def envErr : Env :=
  { read := fun _ _ => ReadResult.err,
    reconnectBeh := fun _ => ReconnectBehavior.ok }

/-- Witness environment in which every read yields the raw value 12345. -/
def env12345 : Env :=
  { read := fun _ _ => ReadResult.ok 12345,
    reconnectBeh := fun _ => ReconnectBehavior.ok }

/-! ### Claim theorems -/

/-- C1: For every round, the aggregate for each measurement kind equals
the sum over all devices of that round's chosen value for the kind; each
chosen value is either the freshly-read (transformed) value or the
last-known-good value of that (device, kind) pair at the start of the
round, and never any other value.  Aggregation is total and every device
contributes a record for every kind (a fallback value, 0 included, is
summed, never excluded). -/
theorem aggregate_sum_of_chosen_values (env : Env) (st : EngineState)
    (ds : List String) :
    (∀ m, (aggregate_values (read_measurement_values env st ds).detailed).1 m
        = chosenSum (read_measurement_values env st ds).detailed m) ∧
    (read_measurement_values env st ds).detailed.map Prod.fst = ds ∧
    (∀ p ∈ (read_measurement_values env st ds).detailed,
        p.2.map Prod.fst = MEASUREMENTS) ∧
    (∀ p ∈ (read_measurement_values env st ds).detailed, ∀ q ∈ p.2,
        (∃ v, env.read p.1 q.1 = ReadResult.ok v ∧
          q.2.value = applyTransform q.1 v) ∨
        ((env.read p.1 q.1).isOk = false ∧ q.2.value = st.lkg p.1 q.1)) := by
  refine ⟨fun m => aggregate_fst, round_shape st ds, round_dev_shape st ds,
    fun p hp q hq => ?_⟩
  rcases round_records_spec p hp q hq with ⟨v, hv, hrec⟩ | ⟨hno, hrec⟩
  · exact Or.inl ⟨v, hv, by rw [hrec]⟩
  · exact Or.inr ⟨hno, by rw [hrec]⟩

/-- C1 witness: the sum identity evaluated in a concrete round. -/
theorem aggregate_sum_of_chosen_values_witness :
    (aggregate_values (read_measurement_values envOk initialState
        [devA, devB]).detailed).1 Measurement.active_power
      = chosenSum (read_measurement_values envOk initialState
          [devA, devB]).detailed Measurement.active_power :=
  (aggregate_sum_of_chosen_values envOk initialState [devA, devB]).1
    Measurement.active_power

/-- C2: The packer writes, for the kind at position i of the declaration
order, high = (sum >> 16) & 0xFFFF at register offset 2i and
low = sum & 0xFFFF at offset 2i+1 (positions 0 and 1 here, K = 2), and
the count at the trailing offset; for every nonnegative aggregate value v
below 2^32 unpacking by high * 2^16 + low reconstructs v exactly, for
every nonnegative v it yields v modulo 2^32 (silent wrap), and
v = 0x18000 packs as high = 1, low = 0x8000. -/
theorem register_packing_layout_roundtrip (agg : Measurement → Int)
    (cnt : Nat) (regs : Nat → Int) :
    update_modbus_registers agg cnt regs 0
        = highWord (agg Measurement.active_power) ∧
    update_modbus_registers agg cnt regs 1
        = lowWord (agg Measurement.active_power) ∧
    update_modbus_registers agg cnt regs 2
        = highWord (agg Measurement.accumulated_energy_yield) ∧
    update_modbus_registers agg cnt regs 3
        = lowWord (agg Measurement.accumulated_energy_yield) ∧
    update_modbus_registers agg cnt regs 4 = Int.ofNat cnt ∧
    (∀ v : Int, 0 ≤ v → v < 4294967296 →
        highWord v * 65536 + lowWord v = v) ∧
    (∀ v : Int, 0 ≤ v →
        highWord v * 65536 + lowWord v = Int.emod v 4294967296) ∧
    highWord 98304 = 1 ∧ lowWord 98304 = 32768 := by
  refine ⟨rfl, rfl, rfl, rfl, rfl, ?_, ?_, by decide, by decide⟩
  · intro v h0 h1
    show ((v / 65536) % 65536) * 65536 + v % 65536 = v
    omega
  · intro v h0
    show ((v / 65536) % 65536) * 65536 + v % 65536 = v % 4294967296
    omega

/-- C2 witness: the roundtrip identity evaluated at the concrete value
98304 = 0x18000. -/
theorem register_packing_layout_roundtrip_witness :
    highWord 98304 * 65536 + lowWord 98304 = 98304 :=
  ((register_packing_layout_roundtrip (fun _ => 0) 0 (fun _ => 0)).2.2.2.2.2.1)
    98304 (by decide) (by decide)

/-- C3: A successful raw reading v of the AccumulatedEnergyYield kind is
stored into the last-known-good table and reported for the round as v
divided by 100 truncating toward zero; the other kind (ActivePower) is
never scaled; 12345 scales to 123 and 99 scales to 0. -/
theorem energy_yield_scaling (env : Env) (st : EngineState) (device : String)
    (v : Int)
    (h : env.read device Measurement.accumulated_energy_yield
      = ReadResult.ok v) :
    (readPair env st device Measurement.accumulated_energy_yield).record.value
        = Int.tdiv v 100 ∧
    (readPair env st device Measurement.accumulated_energy_yield).state.lkg
        device Measurement.accumulated_energy_yield = Int.tdiv v 100 ∧
    (∀ w : Int, applyTransform Measurement.active_power w = w) ∧
    (∀ d2 w, env.read d2 Measurement.active_power = ReadResult.ok w →
        (readPair env st d2 Measurement.active_power).record.value = w) ∧
    applyTransform Measurement.accumulated_energy_yield 12345 = 123 ∧
    applyTransform Measurement.accumulated_energy_yield 99 = 0 := by
  refine ⟨?_, ?_, fun w => rfl, ?_, by decide, by decide⟩
  · rw [readPair_record_ok h]
    rfl
  · rw [readPair_lkg_ok h]
    rfl
  · intro d2 w hw
    rw [readPair_record_ok hw]
    rfl

/-- C3 witness: the raw reading 12345 is stored as 123. -/
theorem energy_yield_scaling_witness :
    (readPair env12345 initialState devA
        Measurement.accumulated_energy_yield).record.value = 123 := by
  have h := energy_yield_scaling env12345 initialState devA 12345 rfl
  rw [h.1]
  decide

/-- C4: Whenever the read of a (device, kind) pair fails (an exception or
the None sentinel), the global failure counter is incremented by one,
exactly one reconnect is attempted on that device (its trace is the
disconnect / 2-time-unit pause / reconnect sequence, truncated where its
own error occurs and never propagated), the pair is marked stale and its
round value is the last-known-good value (0 if never set, as in the
initial state); the last-known-good table is completely unchanged, and a
round always produces a full record set for every device (no abort). -/
theorem read_failure_handling (env : Env) (st : EngineState)
    (device : String) (m : Measurement)
    (h : (env.read device m).isOk = false) :
    (readPair env st device m).state.failedReadingCounter
        = st.failedReadingCounter + 1 ∧
    (readPair env st device m).record.updated = false ∧
    (readPair env st device m).record.value = st.lkg device m ∧
    (readPair env st device m).state.lkg = st.lkg ∧
    (readPair env st device m).trace
        = Action.readAttempt device m
            :: (reconnect_inverter (env.reconnectBeh device) device).1 ∧
    disconnectCount device (readPair env st device m).trace = 1 ∧
    (∀ beh d2, (reconnect_inverter beh d2).1 = [Action.disconnect d2] ∨
        (reconnect_inverter beh d2).1
          = [Action.disconnect d2, Action.sleep RECONNECT_PAUSE,
             Action.connect d2]) ∧
    initialState.lkg device m = 0 ∧
    (∀ st2 ds,
        (read_measurement_values env st2 ds).detailed.map Prod.fst = ds) := by
  refine ⟨readPair_counter_notOk h, ?_, ?_, readPair_lkg_notOk h,
    readPair_trace_notOk h, readPair_disconnectCount_notOk h,
    reconnect_trace_shape, rfl, fun st2 ds => round_shape st2 ds⟩
  · rw [readPair_record_notOk h]
  · rw [readPair_record_notOk h]

/-- C4 witness: a failing read on the concrete all-failing environment
increments the counter from 0 to 1. -/
theorem read_failure_handling_witness :
    (readPair envErr initialState devA
        Measurement.active_power).state.failedReadingCounter = 1 :=
  (read_failure_handling envErr initialState devA
    Measurement.active_power rfl).1

/-- C5: From any engine state, a round in which every read fails leaves
the last-known-good table unchanged and produces, for every measurement
kind, exactly the same per-kind sum as the round (over any environment)
that produced that state, with a health scalar of 0. -/
theorem all_fail_round_idempotent (env1 envF : Env) (st0 : EngineState)
    (ds : List String) (hnd : ds.Nodup)
    (hfail : ∀ d m, (envF.read d m).isOk = false) :
    (∀ m ∈ MEASUREMENTS,
      (aggregate_values (read_measurement_values envF
          (read_measurement_values env1 st0 ds).state ds).detailed).1 m
        = (aggregate_values
            (read_measurement_values env1 st0 ds).detailed).1 m) ∧
    (read_measurement_values envF
        (read_measurement_values env1 st0 ds).state ds).state.lkg
      = (read_measurement_values env1 st0 ds).state.lkg ∧
    (aggregate_values (read_measurement_values envF
        (read_measurement_values env1 st0 ds).state ds).detailed).2 = 0 := by
  have hlkg : (read_measurement_values envF
      (read_measurement_values env1 st0 ds).state ds).state.lkg
      = (read_measurement_values env1 st0 ds).state.lkg :=
    round_lkg_allfail hfail
  refine ⟨fun m hm => ?_, hlkg, ?_⟩
  · rw [aggregate_fst, aggregate_fst, round_chosenSum hm hnd,
      round_chosenSum hm hnd, hlkg]
  · rw [aggregate_snd, round_updCount, okCount_allfail hfail]

/-- C5 witness: the all-fail follow-up round on a concrete one-device
system has health scalar 0. -/
theorem all_fail_round_idempotent_witness :
    (aggregate_values (read_measurement_values envErr
        (read_measurement_values envOk initialState [devA]).state
        [devA]).detailed).2 = 0 :=
  (all_fail_round_idempotent envOk envErr initialState [devA]
    (List.nodup_singleton devA) (fun _ _ => rfl)).2.2

/-- C7: The last-known-good table is mutated only by a successful read of
the specific pair, which sets it to the transformed value: a pair step
leaves every other entry unchanged, a failed read leaves the whole table
unchanged, and across a whole round every entry either keeps its previous
value or holds the transformed value of a successful read of that exact
pair (entries are never cleared). -/
theorem last_known_good_frame (env : Env) (st : EngineState)
    (device : String) (m : Measurement) :
    (∀ d2 m2, ¬(d2 = device ∧ m2 = m) →
        (readPair env st device m).state.lkg d2 m2 = st.lkg d2 m2) ∧
    ((env.read device m).isOk = false →
        (readPair env st device m).state.lkg = st.lkg) ∧
    (∀ v, env.read device m = ReadResult.ok v →
        (readPair env st device m).state.lkg device m
          = applyTransform m v) ∧
    (∀ st2 ds d2 m2,
        (read_measurement_values env st2 ds).state.lkg d2 m2
            = st2.lkg d2 m2 ∨
        ∃ v, env.read d2 m2 = ReadResult.ok v ∧
          (read_measurement_values env st2 ds).state.lkg d2 m2
            = applyTransform m2 v) :=
  ⟨fun _ _ h => readPair_lkg_other h,
   fun h => readPair_lkg_notOk h,
   fun _ h => readPair_lkg_ok h,
   fun _ _ d2 m2 => round_lkg_char d2 m2⟩

/-- C7 witness: a failing read on device A leaves device B's stored
active-power value unchanged. -/
theorem last_known_good_frame_witness :
    (readPair envErr initialState devA
        Measurement.active_power).state.lkg devB Measurement.active_power
      = initialState.lkg devB Measurement.active_power :=
  (last_known_good_frame envErr initialState devA
      Measurement.active_power).1 devB Measurement.active_power
    (by decide)

/-- The environment of the spec's end-to-end scenario: device A reads
active_power = 100 and yield = 5000 freshly; both reads of device B
fail. -/
def envScenario : Env :=
  { read := fun d m =>
      if d = devA ∧ m = Measurement.active_power then ReadResult.ok 100
      else if d = devA ∧ m = Measurement.accumulated_energy_yield then
        ReadResult.ok 5000
      else ReadResult.err,
    reconnectBeh := fun _ => ReconnectBehavior.ok }

/-- The starting state of the spec's end-to-end scenario: device B's
last-known-good values are active_power = 50 and yield = 2000; device A
has none. -/
def stScenario : EngineState :=
  { lkg := fun d m =>
      if d = devB ∧ m = Measurement.active_power then 50
      else if d = devB ∧ m = Measurement.accumulated_energy_yield then 2000
      else 0,
    failedReadingCounter := 0 }

/-- C6 counterexample: in the spec's end-to-end scenario the published
yield aggregate is not 40 and the health scalar is not 1. -/
theorem end_to_end_scenario_counterexample :
    ¬ ((aggregate_values (read_measurement_values envScenario stScenario
          [devA, devB]).detailed).1 Measurement.accumulated_energy_yield
            = 40 ∧
       (aggregate_values (read_measurement_values envScenario stScenario
          [devA, devB]).detailed).2 = 1) := by
  decide

/-- C6 amended: in the end-to-end scenario the published aggregate is
active_power = 150 and yield = 2050 (50 from device A's transformed fresh
reading of 5000 plus device B's stored last-known-good 2000, which is
already transformed), and the health scalar is 2 (device A's two fresh
pairs). -/
theorem end_to_end_scenario_actual :
    (aggregate_values (read_measurement_values envScenario stScenario
        [devA, devB]).detailed).1 Measurement.active_power = 150 ∧
    (aggregate_values (read_measurement_values envScenario stScenario
        [devA, devB]).detailed).1 Measurement.accumulated_energy_yield
      = 2050 ∧
    (aggregate_values (read_measurement_values envScenario stScenario
        [devA, devB]).detailed).2 = 2 := by
  decide

/-- C8 counterexample: in a concrete round over one device the trace
contains no connectivity query at all, in particular not the at-least-one
query per device the claim requires. -/
theorem connectivity_query_counterexample :
    ¬ (1 ≤ connQueryCount
        (read_measurement_values envErr initialState [devA]).trace) := by
  decide

/-- C8 amended: the Reading Engine never evaluates a device's
connectivity state: no round trace contains a connectivity query against
any device handle; the health scalar is derived from per-pair freshness
flags alone. -/
theorem no_connectivity_query (env : Env) (st : EngineState)
    (ds : List String) :
    connQueryCount (read_measurement_values env st ds).trace = 0 :=
  round_noConnQuery

/-- C10: The health scalar produced by aggregation equals the number of
(device, kind) read attempts that succeeded in the round (the fresh-pair
count, not a connected-device count), it is at most
(number of devices) * (number of measurement kinds), and it is the value
written at the trailing register offset 2 * K. -/
theorem health_scalar_counts_fresh_pairs (env : Env) (st : EngineState)
    (ds : List String) (regs : Nat → Int) :
    (aggregate_values (read_measurement_values env st ds).detailed).2
        = okCount env ds ∧
    (aggregate_values (read_measurement_values env st ds).detailed).2
        ≤ ds.length * NUM_MEASUREMENTS ∧
    (∀ agg cnt,
        update_modbus_registers agg cnt regs MEASUREMENTS_REGISTERS
          = Int.ofNat cnt) := by
  have h1 : (aggregate_values
      (read_measurement_values env st ds).detailed).2 = okCount env ds := by
    rw [aggregate_snd, round_updCount]
  exact ⟨h1, by rw [h1]; exact okCount_le, fun agg cnt => rfl⟩

end PVAgg
